import Mathlib

/-!
Verification model of the EMS application (src/apps/ems.py): the Selection &
Detail Sync Controller that coordinates a hierarchical container/item model
between a persisted store and a dual-tree navigation view.

The controller callbacks (`prepare`, `newchild`, `item_select`, `deleteCb`,
`save`, `showCb`, `emsRefresh`) are translated from src/apps/ems.py.  The
Hierarchy Store Adapter (mods/database.py) and the Tree Navigation Engine
(mods/widgets.py ContainerManager / DataEntry) are not part of the visible
source; their operations are modelled from the spec and say so in their doc
comments.  Python exception propagation is made explicit: every callback
returns an `Outcome` holding the post state, the ordered list of engine/store
operations actually performed, and the exception raised, if any.
-/

namespace EMSModel

/-- A persisted item record: unique identifier, category tag and display name
(the fields the EMS queries are "_id" and "Display Name"; the category tag is
the record's category in the store). -/
structure Record where
  id : String
  cat : String
  displayName : String
deriving DecidableEq, Repr

/-- Modelled from the spec: the Hierarchy Store Adapter's state
(mods/database.py is outside the visible source).  `items` are the persisted
records, `edges` the directed container edges (container id, contained item
id), and `rejected` the edge additions the store refuses
(`addContainerEdge -> success | failure(reason)`, e.g. a cycle or a
single-parent violation). -/
structure Store where
  items : List Record
  edges : List (String × String)
  rejected : List (String × String)
deriving DecidableEq, Repr

/-- Modelled from the spec: `queryItems(category, fields)` returns the
sequence of records of the given category. -/
def items_query (st : Store) (cat : String) : List Record :=
  st.items.filter (fun r => r.cat == cat)

/-- Modelled from the spec: `getItem(id, fields) -> record | not-found`. -/
def item_get (st : Store) (i : String) : Option Record :=
  st.items.find? (fun r => r.id == i)

/-- Modelled from the spec: `addContainerEdge(container_id, item_id) ->
success | failure(reason)`; on success the edge is added, on failure the
store is untouched (no silent partial success). -/
def container_add (st : Store) (container i : String) : Option Store :=
  if (container, i) ∈ st.rejected then none
  else some { st with edges := (container, i) :: st.edges }

/-- Modelled from the spec: `getParent(id) -> parent_id | none`, the store's
single container edge pointing at the item (single-parent display
semantics). -/
def getParent (st : Store) (i : String) : Option String :=
  (st.edges.find? (fun e => e.2 == i)).map (fun e => e.1)

/-- The children of a node under the store's container edges. -/
def children (st : Store) (i : String) : List String :=
  (st.edges.filter (fun e => e.1 == i)).map (fun e => e.2)

/-- Fuel-bounded descent: the ids reachable from `root` by following
container edges downward, `root` included. -/
def descend (st : Store) : Nat → String → List String
  | 0, i => [i]
  | n + 1, i => i :: (children st i).flatMap (fun c => descend st n c)

/-- The displayed node set of a tree view rooted at `root`: everything
reachable from the root by container edges (fuel `st.edges.length` bounds any
simple edge path). -/
def buildTree (st : Store) (root : String) : List String :=
  descend st st.edges.length root

/-- The display label of a node, looked up in the store. -/
def labelOf (st : Store) (i : String) : String :=
  ((item_get st i).map Record.displayName).getD ""

/-- Modelled from the spec: the Tree Navigation Engine's state
(mods/widgets.py ContainerManager is outside the visible source): an upper
and a lower tree view rooted at `topbase`/`botbase`, the displayed node ids
of each view, the expanded (open) nodes, the upper tree's selection, and the
highlighted node. -/
structure CMState where
  topbase : Record
  botbase : Record
  displayedTop : List String
  displayedBot : List String
  openNodes : List String
  selectedTop : List String
  highlighted : Option String
deriving DecidableEq, Repr

/-- Modelled from the spec: `refresh()` re-queries the store for the subtrees
rooted at the current bases and rebuilds both views in place, preserving the
open nodes that still exist and clearing selection/highlight entries whose
nodes no longer exist. -/
def refreshCM (st : Store) (cm : CMState) : CMState :=
  let top := buildTree st cm.topbase.id
  let bot := buildTree st cm.botbase.id
  { cm with
    displayedTop := top
    displayedBot := bot
    openNodes := cm.openNodes.filter (fun n => decide (n ∈ top) || decide (n ∈ bot))
    selectedTop := cm.selectedTop.filter (fun n => decide (n ∈ top))
    highlighted := Option.filter (fun n => decide (n ∈ top)) cm.highlighted }

/-- Modelled from the spec: `highlight(node)` sets the selection to the node
in the upper tree when it is displayed (reachable from the current Base);
otherwise it is a no-op. -/
def highlightCM (cm : CMState) (i : String) : CMState :=
  if i ∈ cm.displayedTop then
    { cm with highlighted := some i, selectedTop := [i] }
  else cm

/-- Modelled from the spec: `open()` expands the currently highlighted node
so its children are visible. -/
def openCM (cm : CMState) : CMState :=
  match cm.highlighted with
  | some n => { cm with openNodes := n :: cm.openNodes }
  | none => cm

/-- Modelled from the spec: `base(newbase)` replaces the shared Base record
of both tree views. -/
def baseSetCM (cm : CMState) (node : Record) : CMState :=
  { cm with topbase := node, botbase := node }

/-- Modelled from the spec: `setBase(node)` replaces the Base of both trees
with the node and fully rebuilds both views from the store. -/
def setBaseCM (st : Store) (cm : CMState) (node : Record) : CMState :=
  refreshCM st (baseSetCM cm node)

/-- Modelled from the spec: `parentOf(node)` — the in-view parent id of the
node in the upper tree, or the sentinel `""` when the node is displayed at
root level (its true parent, if any, lies above the current Base). -/
def treeParent (st : Store) (cm : CMState) (target : String) : String :=
  if target = cm.topbase.id then ""
  else
    match getParent st target with
    | some p => if p ∈ cm.displayedTop then p else ""
    | none => ""

/-- The whole application state: the store, the container manager, the edit
pane's displayed record and the active (current) item id. -/
structure EMSState where
  store : Store
  cm : CMState
  editPane : Option Record
  current : Option String
deriving DecidableEq, Repr

/-- Modelled from the spec: the rebase protocol of `tree_rebase(target)` —
query the store for the target's true parent `p` and `setBase(p)`, so the
target becomes reachable as a direct child; when the target has no parent,
`setBase` is called directly on the target itself (terminal case); a stale
reference leaves the state unchanged. -/
def tree_rebase (s : EMSState) (target : String) : EMSState :=
  match getParent s.store target with
  | some p =>
    match item_get s.store p with
    | some rec => { s with cm := setBaseCM s.store s.cm rec }
    | none => s
  | none =>
    match item_get s.store target with
    | some rec => { s with cm := setBaseCM s.store s.cm rec }
    | none => s

/-- An observable operation performed by a controller transition. -/
inductive Op where
  | opContainerAdd (container i : String)
  | opBaseSet (parent : String)
  | opRefresh
  | opHighlight (i : String)
  | opOpen
  | opShowPane (i : String)
deriving DecidableEq, Repr

/-- The outcome of one controller callback: the post state, the operations
performed in order, and the exception raised, if any (a raised exception
aborts the callback at that point; the state reflects only the mutations
already performed). -/
structure Outcome where
  state : EMSState
  ops : List Op
  exn : Option String
deriving DecidableEq, Repr

/-- EMS.refresh (src/apps/ems.py:92-94): refreshes the trees via the
container manager. -/
def emsRefresh (s : EMSState) : EMSState :=
  { s with cm := refreshCM s.store s.cm }

/-- EMS.prepare (src/apps/ems.py:62-65): resolve the base item as the first
record of a single `items_query` for category "Evacuation" (`base, *_ = ...`
raises when the query is empty, hence `none`), and construct the container
manager with that record as both the top and the bottom base. -/
def prepare (st : Store) : Option EMSState :=
  match items_query st "Evacuation" with
  | [] => none
  | base :: _ =>
    some { store := st
           cm := refreshCM st
             { topbase := base, botbase := base, displayedTop := [],
               displayedBot := [], openNodes := [], selectedTop := [],
               highlighted := none }
           editPane := none
           current := none }

/-- Modelled from the spec: the edit pane's `show(record)` call populates the
pane's fields with the record; the record's item becomes the active item. -/
def deShow (s : EMSState) (doc : Record) : EMSState :=
  { s with editPane := some doc, current := some doc.id }

/-- EMS.item_select (src/apps/ems.py:102-105): unpack the single selected
record (`doc, = args` raises unless `args` has exactly one element) and push
it to the data entry pane. -/
def item_select (s : EMSState) (args : List Record) : Outcome :=
  match args with
  | [doc] => ⟨deShow s doc, [.opShowPane doc.id], none⟩
  | _ => ⟨s, [], some "ValueError: unpack"⟩

/-- Modelled from the spec: on a tree selection change to item `x`, the full
record of `x` is read via the Store Adapter and delivered to the controller's
selection callback (mods/widgets.py wires `select=self.item_select`). -/
def selectionChanged (s : EMSState) (x : String) : Outcome :=
  match item_get s.store x with
  | none => ⟨s, [], some "stale reference"⟩
  | some doc => item_select s [doc]

/-- EMS.newchild (src/apps/ems.py:75-81): look up the in-view parent of the
target; if it is the empty sentinel, rebase the upper tree on the target and
re-resolve the parent; finally highlight the parent. -/
def newchild (s : EMSState) (target : String) : Outcome :=
  let parent := treeParent s.store s.cm target
  if parent = "" then
    let s1 := tree_rebase s target
    let parent1 := treeParent s1.store s1.cm target
    ⟨{ s1 with cm := highlightCM s1.cm parent1 }, [.opHighlight parent1], none⟩
  else
    ⟨{ s with cm := highlightCM s.cm parent }, [.opHighlight parent], none⟩

/-- EMS.delete (src/apps/ems.py:108-119): with a non-empty parent chain,
take its first element `parent`; if the deleted id is the displayed Base's
id, replace the Base by `parent`'s record fetched via the store (a missing
record raises); then refresh, highlight `parent` and open.  With an empty
chain, refresh only. -/
def deleteCb (s : EMSState) (i : String) (parents : List String) : Outcome :=
  match parents with
  | [] => ⟨emsRefresh s, [.opRefresh], none⟩
  | parent :: _ =>
    if i = s.cm.topbase.id then
      match item_get s.store parent with
      | none => ⟨s, [], some "item_get: not found"⟩
      | some rec =>
        let s1 := { s with cm := baseSetCM s.cm rec }
        let s2 := emsRefresh s1
        let s3 := { s2 with cm := highlightCM s2.cm parent }
        ⟨{ s3 with cm := openCM s3.cm },
         [.opBaseSet parent, .opRefresh, .opHighlight parent, .opOpen], none⟩
    else
      let s2 := emsRefresh s
      let s3 := { s2 with cm := highlightCM s2.cm parent }
      ⟨{ s3 with cm := openCM s3.cm },
       [.opRefresh, .opHighlight parent, .opOpen], none⟩

/-- EMS.save (src/apps/ems.py:122-131): when the saved id is not None,
unpack the first tree selection as the container (`container, *_ = ...`
raises on an empty selection), add the container edge in the database (a
store failure raises and aborts), refresh, then highlight and expand the
container; when the id is None, only refresh. -/
def save (s : EMSState) (i : Option String) : Outcome :=
  match i with
  | none => ⟨emsRefresh s, [.opRefresh], none⟩
  | some x =>
    match s.cm.selectedTop with
    | [] => ⟨s, [], some "ValueError: not enough values to unpack"⟩
    | container :: _ =>
      match container_add s.store container x with
      | none => ⟨s, [], some "container_add failed"⟩
      | some st =>
        let s1 := emsRefresh { s with store := st }
        let s2 := { s1 with cm := highlightCM s1.cm container }
        ⟨{ s2 with cm := openCM s2.cm },
         [.opContainerAdd container x, .opRefresh, .opHighlight container, .opOpen],
         none⟩

/-- EMS.show (src/apps/ems.py:134-139): when the id is not None, refresh and
highlight it; otherwise do nothing at all. -/
def showCb (s : EMSState) (i : Option String) : Outcome :=
  match i with
  | none => ⟨s, [], none⟩
  | some x =>
    let s1 := emsRefresh s
    ⟨{ s1 with cm := highlightCM s1.cm x }, [.opRefresh, .opHighlight x], none⟩

/-! ### Helper lemmas -/

theorem filter_idem {α : Type} (p : α → Bool) (l : List α) :
    (l.filter p).filter p = l.filter p := by
  induction l with
  | nil => rfl
  | cons a t ih =>
    by_cases h : p a
    · simp [List.filter, h, ih]
    · simp [List.filter, h, ih]

theorem option_filter_idem {α : Type} (p : α → Bool) (o : Option α) :
    Option.filter p (Option.filter p o) = Option.filter p o := by
  cases o with
  | none => rfl
  | some a =>
    by_cases h : p a
    · simp [Option.filter, h]
    · simp [Option.filter, h]

theorem refreshCM_idem (st : Store) (cm : CMState) :
    refreshCM st (refreshCM st cm) = refreshCM st cm := by
  simp [refreshCM, filter_idem, option_filter_idem]

theorem self_mem_descend (st : Store) (n : Nat) (r : String) :
    r ∈ descend st n r := by
  cases n with
  | zero => simp [descend]
  | succ m => simp [descend]

theorem self_mem_buildTree (st : Store) (r : String) :
    r ∈ buildTree st r :=
  self_mem_descend st st.edges.length r

theorem mem_descend_source (st : Store) (n : Nat) (r x : String)
    (h : x ∈ descend st n r) : x = r ∨ ∃ c, (c, x) ∈ st.edges := by
  induction n generalizing r with
  | zero =>
    simp [descend] at h
    exact Or.inl h
  | succ m ih =>
    simp only [descend, List.mem_cons, List.mem_flatMap] at h
    rcases h with h | ⟨c, hc, hx⟩
    · exact Or.inl h
    · rcases ih c hx with h1 | h1
      · subst h1
        simp only [children, List.mem_map, List.mem_filter] at hc
        rcases hc with ⟨e, ⟨he, hfst⟩, hsnd⟩
        refine Or.inr ⟨e.1, ?_⟩
        have : e = (e.1, x) := by
          cases e
          simp at hsnd
          simp [hsnd]
        rw [← this]
        exact he
      · exact Or.inr h1

theorem not_mem_buildTree_of_no_edge (st : Store) (r x : String)
    (hne : x ≠ r) (hno : ∀ c, (c, x) ∉ st.edges) :
    x ∉ buildTree st r := by
  intro h
  rcases mem_descend_source st st.edges.length r x h with h1 | ⟨c, hc⟩
  · exact hne h1
  · exact hno c hc

theorem item_get_id (st : Store) (i : String) (r : Record)
    (h : item_get st i = some r) : r.id = i := by
  have := List.find?_some h
  simpa using this

theorem filter_cons_prop {α : Type} (p : α → Bool) (l : List α) (a : α)
    (r : List α) (h : l.filter p = a :: r) : p a = true := by
  have : a ∈ l.filter p := by
    rw [h]
    exact List.mem_cons_self a r
  exact (List.mem_filter.mp this).2

theorem container_add_mem (st0 st : Store) (c x : String)
    (h : container_add st0 c x = some st) : (c, x) ∈ st.edges := by
  unfold container_add at h
  split at h
  · exact absurd h (by simp)
  · rw [Option.some_inj] at h
    rw [← h]
    exact List.mem_cons_self _ _

theorem treeParent_mem (st : Store) (cm : CMState) (t q : String)
    (h : treeParent st cm t = q) (hq : q ≠ "") : q ∈ cm.displayedTop := by
  unfold treeParent at h
  split at h
  · exact absurd h.symm hq
  · split at h
    · rename_i p hp
      split at h
      · rename_i hmem
        rw [h] at hmem
        exact hmem
      · exact absurd h.symm hq
    · exact absurd h.symm hq

/-! ### Concrete fixtures used by the witnesses -/

def exE : Record := ⟨"e", "Evacuation", "Evac"⟩

def exC : Record := ⟨"c", "Container", "Box"⟩

def exX : Record := ⟨"x", "Item", "Thing"⟩

def exP : Record := ⟨"p", "Container", "Parent"⟩

def exStore : Store := ⟨[exE, exC, exX, exP], [("e", "c")], []⟩

def exCM : CMState :=
  { topbase := exE, botbase := exE, displayedTop := ["e", "c"],
    displayedBot := ["e", "c"], openNodes := [], selectedTop := ["c"],
    highlighted := none }

def exState : EMSState := ⟨exStore, exCM, none, none⟩

def exStoreFail : Store := ⟨[exE, exC, exX, exP], [("e", "c")], [("c", "x")]⟩

def exStateFail : EMSState := ⟨exStoreFail, exCM, none, none⟩

def exStoreAfter : Store := ⟨[exE, exC, exX, exP], [("c", "x"), ("e", "c")], []⟩

def exStoreReb : Store := ⟨[exP, exX], [("p", "x")], []⟩

def exCMReb : CMState :=
  { topbase := exX, botbase := exX, displayedTop := ["x"],
    displayedBot := ["x"], openNodes := [], selectedTop := [],
    highlighted := none }

def exStateReb : EMSState := ⟨exStoreReb, exCMReb, none, none⟩

def exStoreDel : Store := ⟨[exP, exC], [("p", "c")], []⟩

def exCMDel : CMState :=
  { topbase := exX, botbase := exX, displayedTop := ["x"],
    displayedBot := ["x"], openNodes := [], selectedTop := [],
    highlighted := none }

def exStateDel : EMSState := ⟨exStoreDel, exCMDel, none, none⟩

def exCMEmptySel : CMState :=
  { topbase := exE, botbase := exE, displayedTop := ["e", "c"],
    displayedBot := ["e", "c"], openNodes := [], selectedTop := [],
    highlighted := none }

def exStateEmptySel : EMSState := ⟨exStore, exCMEmptySel, none, none⟩

/-! ### Claim theorems -/

/-- C1: `save` is the only controller transition whose action mutates the
store (the `container_add` call).  If that mutation step fails, the
transition aborts with the store's exception before `refresh()` is invoked:
no operation at all is performed (so neither refresh, highlight nor open),
and the post state — store, displayed trees, Base and selection — is exactly
the pre-transition state. -/
theorem save_mutation_failure_aborts (s : EMSState) (x container : String)
    (rest : List String)
    (hsel : s.cm.selectedTop = container :: rest)
    (hfail : container_add s.store container x = none) :
    (save s (some x)).state = s
    ∧ (save s (some x)).ops = []
    ∧ (save s (some x)).exn.isSome = true := by
  simp [save, hsel, hfail]

theorem save_mutation_failure_aborts_witness :
    (save exStateFail (some "x")).state = exStateFail
    ∧ (save exStateFail (some "x")).ops = []
    ∧ (save exStateFail (some "x")).exn.isSome = true :=
  save_mutation_failure_aborts exStateFail "x" "c" [] (by decide) (by decide)

/-- C6: refresh is idempotent — for a fixed store and Base, running
`refresh()` twice with no intervening store mutation produces exactly the
same application state as running it once (in particular the same displayed
node id sets in both trees, and hence the same labels, since every label is
`labelOf` of the unchanged store). -/
theorem refresh_idempotent (s : EMSState) :
    emsRefresh (emsRefresh s) = emsRefresh s
    ∧ (emsRefresh (emsRefresh s)).cm.displayedTop.map
        (labelOf (emsRefresh (emsRefresh s)).store)
      = (emsRefresh s).cm.displayedTop.map (labelOf (emsRefresh s).store) := by
  have h : emsRefresh (emsRefresh s) = emsRefresh s := by
    simp [emsRefresh, refreshCM_idem]
  exact ⟨h, by rw [h]⟩

/-- C8: if save is confirmed with a non-null id while the tree selection is
empty, unpacking the selection raises (ValueError) before any store mutation
and before refresh: no container edge is added, no operation runs, and the
state — displayed tree, Base and selection — is unchanged. -/
theorem save_empty_selection_aborts (s : EMSState) (x : String)
    (hsel : s.cm.selectedTop = []) :
    (save s (some x)).state = s
    ∧ (save s (some x)).ops = []
    ∧ (save s (some x)).exn.isSome = true := by
  simp [save, hsel]

theorem save_empty_selection_aborts_witness :
    (save exStateEmptySel (some "x")).state = exStateEmptySel
    ∧ (save exStateEmptySel (some "x")).ops = []
    ∧ (save exStateEmptySel (some "x")).exn.isSome = true :=
  save_empty_selection_aborts exStateEmptySel "x" (by decide)

/-- C9: a show request with a null item id is a complete no-op: the state is
returned unchanged, no operation (in particular no refresh and no highlight)
is performed, and no exception is raised. -/
theorem show_null_noop (s : EMSState) :
    showCb s none = ⟨s, [], none⟩ := rfl

/-- C10: the delete callback with a non-empty parent chain depends only on
the item id and the first element of the chain: any two invocations agreeing
on these produce identical outcomes — the same operations in the same order
and the same post state — whatever the rest of the chain is. -/
theorem delete_head_only (s : EMSState) (i p : String) (r1 r2 : List String) :
    deleteCb s i (p :: r1) = deleteCb s i (p :: r2) := rfl

/-- C5: when the tree selection changes to item `x`, the full record of `x`
is read via the Store Adapter and pushed to the edit pane, and the active
item becomes `x` (the record read and the pane delivery are the pipeline's
only operation; no exception is raised). -/
theorem selection_sync (s : EMSState) (x : String) (doc : Record)
    (hget : item_get s.store x = some doc) :
    (selectionChanged s x).state.editPane = some doc
    ∧ (selectionChanged s x).state.current = some x
    ∧ (selectionChanged s x).ops = [.opShowPane x]
    ∧ (selectionChanged s x).exn = none := by
  have hid : doc.id = x := item_get_id s.store x doc hget
  simp [selectionChanged, hget, item_select, deShow, hid]

theorem selection_sync_witness :
    (selectionChanged exState "x").state.editPane = some exX
    ∧ (selectionChanged exState "x").state.current = some "x"
    ∧ (selectionChanged exState "x").ops = [.opShowPane "x"]
    ∧ (selectionChanged exState "x").exn = none :=
  selection_sync exState "x" exX (by decide)

/-- C7: at startup, `prepare` resolves the base item by one `items_query`
call for the distinguished category "Evacuation", takes that category's
first (singleton) record, and roots both the upper and the lower tree view
at that same shared base record. -/
theorem prepare_shared_base (st : Store) (base : Record) (rest : List Record)
    (hq : items_query st "Evacuation" = base :: rest) :
    ∃ s, prepare st = some s
      ∧ s.cm.topbase = base
      ∧ s.cm.botbase = base
      ∧ base.cat = "Evacuation" := by
  have hq2 : st.items.filter (fun r => r.cat == "Evacuation") = base :: rest := hq
  have hcat : base.cat = "Evacuation" := by
    have := filter_cons_prop (fun r => r.cat == "Evacuation") st.items base rest hq2
    simpa using this
  refine ⟨{ store := st
            cm := refreshCM st
              { topbase := base, botbase := base, displayedTop := [],
                displayedBot := [], openNodes := [], selectedTop := [],
                highlighted := none }
            editPane := none
            current := none }, ?_, ?_, ?_, hcat⟩
  · simp [prepare, hq]
  · simp [refreshCM]
  · simp [refreshCM]

theorem prepare_shared_base_witness :
    ∃ s, prepare exStore = some s
      ∧ s.cm.topbase = exE
      ∧ s.cm.botbase = exE
      ∧ exE.cat = "Evacuation" :=
  prepare_shared_base exStore exE [] (by decide)

/-- C2: when save is confirmed for a non-null item id `x`, the controller
reads the selected container from the tree selection, adds the container
edge via the Store Adapter, then refreshes, then highlights and expands the
container — in exactly that order (the operation trace), so the mutation
completes before refresh and refresh precedes highlight; afterwards the edge
(container → x) exists in the store and the container is the highlighted,
expanded node, with the active item unchanged. -/
theorem save_confirmed_spec (s : EMSState) (x container : String)
    (rest : List String) (st : Store)
    (hsel : s.cm.selectedTop = container :: rest)
    (hadd : container_add s.store container x = some st)
    (hreach : container ∈ buildTree st s.cm.topbase.id) :
    (save s (some x)).ops =
      [.opContainerAdd container x, .opRefresh, .opHighlight container, .opOpen]
    ∧ (container, x) ∈ (save s (some x)).state.store.edges
    ∧ (save s (some x)).state.cm.highlighted = some container
    ∧ container ∈ (save s (some x)).state.cm.openNodes
    ∧ (save s (some x)).state.current = s.current
    ∧ (save s (some x)).exn = none := by
  have hmem := container_add_mem s.store st container x hadd
  simp [save, hsel, hadd, emsRefresh, refreshCM, highlightCM, openCM, hreach, hmem]

theorem save_confirmed_spec_witness :
    (save exState (some "x")).ops =
      [.opContainerAdd "c" "x", .opRefresh, .opHighlight "c", .opOpen]
    ∧ ("c", "x") ∈ (save exState (some "x")).state.store.edges
    ∧ (save exState (some "x")).state.cm.highlighted = some "c"
    ∧ "c" ∈ (save exState (some "x")).state.cm.openNodes
    ∧ (save exState (some "x")).state.current = exState.current
    ∧ (save exState (some "x")).exn = none :=
  save_confirmed_spec exState "x" "c" [] exStoreAfter (by decide) (by decide)
    (by decide)

/-- C3: on a create-child request for node `x`: if the in-view parent of `x`
is the "no parent in view" sentinel, the engine rebases so that `x`'s true
parent `p` becomes the new root, `parentOf(x)` re-resolves to `p`, and `p`
is highlighted — afterwards Base = `p` and `parentOf(x) = p`; if the in-view
parent is already defined, that parent is highlighted directly with Base and
store untouched. -/
theorem newchild_spec (s : EMSState) (x : String) :
    (∀ p rp, treeParent s.store s.cm x = "" →
      getParent s.store x = some p →
      item_get s.store p = some rp →
      x ≠ p →
      (newchild s x).state.cm.topbase.id = p
      ∧ treeParent (newchild s x).state.store (newchild s x).state.cm x = p
      ∧ (newchild s x).state.cm.highlighted = some p
      ∧ (newchild s x).ops = [.opHighlight p])
    ∧ (∀ q, treeParent s.store s.cm x = q → q ≠ "" →
      (newchild s x).state.cm.highlighted = some q
      ∧ (newchild s x).state.cm.topbase = s.cm.topbase
      ∧ (newchild s x).state.store = s.store
      ∧ (newchild s x).ops = [.opHighlight q]) := by
  constructor
  · intro p rp hview hpar hrec hne
    have hid : rp.id = p := item_get_id s.store p rp hrec
    have hne2 : ¬ x = rp.id := by
      rw [hid]
      exact hne
    have hmemp : p ∈ buildTree s.store p := self_mem_buildTree s.store p
    have hmem : p ∈ buildTree s.store rp.id := by
      rw [hid]
      exact hmemp
    have hreb : tree_rebase s x = { s with cm := setBaseCM s.store s.cm rp } := by
      simp [tree_rebase, hpar, hrec]
    have hparent1 :
        treeParent (tree_rebase s x).store (tree_rebase s x).cm x = p := by
      rw [hreb]
      simp [treeParent, setBaseCM, baseSetCM, refreshCM, hne2, hpar, hmem]
    have hstep : newchild s x =
        ⟨{ tree_rebase s x with
             cm := highlightCM (tree_rebase s x).cm
               (treeParent (tree_rebase s x).store (tree_rebase s x).cm x) },
         [.opHighlight
            (treeParent (tree_rebase s x).store (tree_rebase s x).cm x)],
         none⟩ := by
      simp [newchild, hview]
    rw [hstep, hparent1, hreb]
    refine ⟨?_, ?_, ?_, rfl⟩
    · simp [setBaseCM, baseSetCM, refreshCM, highlightCM, hmem, hmemp, hid]
    · simp [treeParent, setBaseCM, baseSetCM, refreshCM, highlightCM, hmem,
        hmemp, hne2, hne, hpar, hid]
    · simp [setBaseCM, baseSetCM, refreshCM, highlightCM, hmem, hmemp]
  · intro q hq hqne
    have hmem : q ∈ s.cm.displayedTop := treeParent_mem s.store s.cm x q hq hqne
    simp [newchild, hq, hqne, highlightCM, hmem]

theorem newchild_spec_witness :
    ((newchild exStateReb "x").state.cm.topbase.id = "p"
      ∧ treeParent (newchild exStateReb "x").state.store
          (newchild exStateReb "x").state.cm "x" = "p"
      ∧ (newchild exStateReb "x").state.cm.highlighted = some "p"
      ∧ (newchild exStateReb "x").ops = [.opHighlight "p"])
    ∧ ((newchild exState "c").state.cm.highlighted = some "e"
      ∧ (newchild exState "c").state.cm.topbase = exState.cm.topbase
      ∧ (newchild exState "c").state.store = exState.store
      ∧ (newchild exState "c").ops = [.opHighlight "e"]) :=
  ⟨(newchild_spec exStateReb "x").1 "p" exP (by decide) (by decide) (by decide)
      (by decide),
   (newchild_spec exState "c").2 "e" (by decide) (by decide)⟩

/-- C4: when delete is confirmed for item `x` with a non-empty parent chain
headed by `p` (whose record exists in the store, the item `x` having already
been removed so no edge points at it): if `x` was the displayed Base, the
Base is first replaced by `p`'s record, then refresh, highlight `p` and open
run in that order — afterwards Base = `p`, `p` is highlighted and expanded,
and `x` is absent from both displayed trees; if `x` was not the Base, the
same refresh/highlight/open sequence runs with the Base unchanged. -/
theorem delete_confirmed_spec (s : EMSState) (x p : String)
    (rest : List String) (rp : Record)
    (hrec : item_get s.store p = some rp)
    (hno : ∀ c, (c, x) ∉ s.store.edges)
    (hxp : x ≠ p)
    (hshared : s.cm.botbase = s.cm.topbase) :
    (x = s.cm.topbase.id →
      (deleteCb s x (p :: rest)).ops =
        [.opBaseSet p, .opRefresh, .opHighlight p, .opOpen]
      ∧ (deleteCb s x (p :: rest)).state.cm.topbase.id = p
      ∧ (deleteCb s x (p :: rest)).state.cm.highlighted = some p
      ∧ p ∈ (deleteCb s x (p :: rest)).state.cm.openNodes
      ∧ x ∉ (deleteCb s x (p :: rest)).state.cm.displayedTop
      ∧ x ∉ (deleteCb s x (p :: rest)).state.cm.displayedBot)
    ∧ (x ≠ s.cm.topbase.id → p ∈ buildTree s.store s.cm.topbase.id →
      (deleteCb s x (p :: rest)).ops = [.opRefresh, .opHighlight p, .opOpen]
      ∧ (deleteCb s x (p :: rest)).state.cm.topbase = s.cm.topbase
      ∧ (deleteCb s x (p :: rest)).state.cm.highlighted = some p
      ∧ p ∈ (deleteCb s x (p :: rest)).state.cm.openNodes
      ∧ x ∉ (deleteCb s x (p :: rest)).state.cm.displayedTop
      ∧ x ∉ (deleteCb s x (p :: rest)).state.cm.displayedBot) := by
  have hid : rp.id = p := item_get_id s.store p rp hrec
  have hmemp : p ∈ buildTree s.store p := self_mem_buildTree s.store p
  have hmemrp : p ∈ buildTree s.store rp.id := by
    rw [hid]
    exact hmemp
  have habs : x ∉ buildTree s.store p :=
    not_mem_buildTree_of_no_edge s.store p x hxp hno
  have habsrp : x ∉ buildTree s.store rp.id := by
    rw [hid]
    exact habs
  constructor
  · intro hbase
    have habs2 : s.cm.topbase.id ∉ buildTree s.store p := by
      rw [← hbase]
      exact habs
    have habs2rp : s.cm.topbase.id ∉ buildTree s.store rp.id := by
      rw [← hbase]
      exact habsrp
    simp [deleteCb, hbase, hrec, emsRefresh, baseSetCM, refreshCM,
      highlightCM, openCM, hid, hmemp, hmemrp, habs, habsrp, habs2, habs2rp]
  · intro hnotbase hreach
    have habstop : x ∉ buildTree s.store s.cm.topbase.id :=
      not_mem_buildTree_of_no_edge s.store s.cm.topbase.id x hnotbase hno
    simp [deleteCb, hnotbase, emsRefresh, refreshCM, highlightCM, openCM,
      hreach, habstop, hshared]

theorem delete_confirmed_spec_witness :
    ((deleteCb exStateDel "x" ["p"]).ops =
        [.opBaseSet "p", .opRefresh, .opHighlight "p", .opOpen]
      ∧ (deleteCb exStateDel "x" ["p"]).state.cm.topbase.id = "p"
      ∧ (deleteCb exStateDel "x" ["p"]).state.cm.highlighted = some "p"
      ∧ "p" ∈ (deleteCb exStateDel "x" ["p"]).state.cm.openNodes
      ∧ "x" ∉ (deleteCb exStateDel "x" ["p"]).state.cm.displayedTop
      ∧ "x" ∉ (deleteCb exStateDel "x" ["p"]).state.cm.displayedBot)
    ∧ ((deleteCb exState "x" ["c"]).ops =
        [.opRefresh, .opHighlight "c", .opOpen]
      ∧ (deleteCb exState "x" ["c"]).state.cm.topbase = exState.cm.topbase
      ∧ (deleteCb exState "x" ["c"]).state.cm.highlighted = some "c"
      ∧ "c" ∈ (deleteCb exState "x" ["c"]).state.cm.openNodes
      ∧ "x" ∉ (deleteCb exState "x" ["c"]).state.cm.displayedTop
      ∧ "x" ∉ (deleteCb exState "x" ["c"]).state.cm.displayedBot) :=
  ⟨(delete_confirmed_spec exStateDel "x" "p" [] exP (by decide)
      (by simp [exStateDel, exStoreDel]) (by decide) (by decide)).1 (by decide),
   (delete_confirmed_spec exState "x" "c" [] exC (by decide)
      (by simp [exState, exStore]) (by decide) (by decide)).2 (by decide)
      (by decide)⟩

end EMSModel
